import Mathlib

/-!
Verification of the sequence-window normalizer of
`TrainingInterfaces/Spectrogram_to_Embedding/StyleEmbedding.py` and of the
log-STFT-magnitude loss of `MelGAN/LogSTFTMagnitudeLoss.py`.

Modelling conventions (shallow embedding of the Python source):

* A spectrogram is a list of rows (time steps); each row is a `List ℝ` of
  feature values.  A batch is a list of spectrograms, the length vector a
  list of naturals.
* `numpy.random` global state is embedded as an explicitly threaded stream
  of naturals (`RandSource`); `numpy.random.randint(low=0, high=h)` draws
  the head of the stream modulo `h` (an arbitrary value of the half-open
  range `[0, h)`; every value of the range is attained by some stream) and
  fails — numpy raises `ValueError` — when the range `[0, h)` is empty.
* The Python `while` loop is embedded with explicit fuel; `none` means the
  loop did not exit within the given fuel, so divergence of the source loop
  appears as `none` for every fuel.
* The style encoder `self.gst` is an external black box (out of scope);
  the verified stage is the construction of the stacked window batch that
  is passed to it.
-/

namespace StyleEmbedding

/-- Row of a spectrogram: one time step with its feature values. -/
abbrev Row : Type := List ℝ

/-- Spectrogram: a list of time steps. -/
abbrev Spectrogram : Type := List Row

/-- Source: `window_size = 256` in `StyleEmbedding.forward`. -/
def window_size : Nat := 256

/-- Source: `spec.repeat((2, 1))` — tile the sequence twice along the time
axis, once along the feature axis. -/
def repeat2 (spec : Spectrogram) : Spectrogram := spec ++ spec

/-- Source: `while current_spec_length < window_size: spec = spec.repeat((2, 1))`.
Embedded with fuel; `none` means the loop did not terminate within `fuel`
iterations. -/
def doubleWhile : Nat → Spectrogram → Option Spectrogram
  | 0, _ => none
  | fuel + 1, spec =>
    if spec.length < window_size then doubleWhile fuel (repeat2 spec)
    else some spec

/-- Explicitly threaded embedding of the ambient `numpy.random` state: a
stream of naturals. -/
abbrev RandSource : Type := Nat → Nat

/-- Source: `numpy.random.randint(low=0, high=high)` — one draw from the
half-open range `[0, high)`; numpy raises `ValueError` when the range is
empty (`high = 0`), embedded as `none`. -/
def randint (high : Nat) (rng : RandSource) : Option (Nat × RandSource) :=
  if high = 0 then none
  else some (rng 0 % high, fun k => rng (k + 1))

/-- Source, lines 54–61: the branch on `current_spec_length` after the
doubling loop.  `> window_size`: draw `remove_front` and crop a window of
`window_size` rows; `== window_size`: take the sequence as is, without
touching the random state; otherwise nothing is appended to
`list_of_specs` (the source has no `else` branch). -/
def selectWindow (spec : Spectrogram) (rng : RandSource) :
    Option (List Spectrogram × RandSource) :=
  if window_size < spec.length then
    match randint (spec.length - window_size) rng with
    | none => none
    | some (remove_front, rng') =>
        some ([(spec.drop remove_front).take window_size], rng')
  else if spec.length = window_size then
    some ([spec], rng)
  else
    some ([], rng)

/-- Source, lines 45–61: body of the `for` loop for one batch element —
slice to the true length, double unconditionally once, keep doubling while
shorter than `window_size`, then select the window. -/
def processElement (fuel : Nat) (src : Spectrogram) (n : Nat)
    (rng : RandSource) : Option (List Spectrogram × RandSource) :=
  match doubleWhile fuel (repeat2 (src.take n)) with
  | none => none
  | some spec => selectWindow spec rng

/-- Source, lines 44–62: the `for` loop of `StyleEmbedding.forward` that
builds `list_of_specs` — iterate over the length vector, index the batch
in lockstep (indexing past the end of the batch raises, embedded as
`none`), and collect the produced windows in order.  The final
`torch.stack` of line 63 is modelled separately by `stack`. -/
def windowBatch (fuel : Nat) :
    List Spectrogram → List Nat → RandSource →
      Option (List Spectrogram × RandSource)
  | _, [], rng => some ([], rng)
  | [], _ :: _, _ => none
  | src :: batch, n :: lengths, rng =>
    match processElement fuel src n rng with
    | none => none
    | some (ws, rng') =>
      match windowBatch fuel batch lengths rng' with
      | none => none
      | some (out, rng'') => some (ws ++ out, rng'')

/-- Source, line 63: `torch.stack(list_of_specs, dim=0)` — stack the
collected windows into the batch tensor
`batch_of_spectrograms_unified_length`.  `torch.stack` of an empty list
raises `RuntimeError` ("stack expects a non-empty TensorList"), embedded
as `none`. -/
def stack (l : List Spectrogram) : Option (List Spectrogram) :=
  match l with
  | [] => none
  | w :: ws => some (w :: ws)

/-- Source, lines 44–63: the whole windowing stage of
`StyleEmbedding.forward` — run the window-collecting loop, then stack the
collected windows into the tensor handed to the aggregator (failing on an
empty collection, as `torch.stack` does). -/
def stackedWindowBatch (fuel : Nat) (batch : List Spectrogram)
    (lengths : List Nat) (rng : RandSource) :
    Option (List Spectrogram × RandSource) :=
  match windowBatch fuel batch lengths rng with
  | none => none
  | some (out, rng') =>
    match stack out with
    | none => none
    | some stacked => some (stacked, rng')

/-- Validity of one (padded sequence, true length) pair: the length is
positive and at most the padded time extent. -/
def ValidPair (src : Spectrogram) (n : Nat) : Prop :=
  1 ≤ n ∧ n ≤ src.length

instance (src : Spectrogram) (n : Nat) : Decidable (ValidPair src n) := by
  unfold ValidPair; infer_instance

/-- `out` is a (power-of-two) repetition of `base`: its length is
`2 ^ k * base.length` and every row is the row of `base` at the same index
taken modulo `base.length`. -/
def IsRepOf (base out : Spectrogram) : Prop :=
  (∃ k : Nat, out.length = 2 ^ k * base.length) ∧
    ∀ i : Nat, ∀ h : i < out.length, ∀ hb : i % base.length < base.length,
      out.get ⟨i, h⟩ = base.get ⟨i % base.length, hb⟩

/-- `w` is a correct window for the source sequence `src` of true length
`n`: it has exactly `window_size` rows and every row equals a row of `src`
at an index strictly below `n` (the valid, non-padded region). -/
def WindowOf (src : Spectrogram) (n : Nat) (w : Spectrogram) : Prop :=
  w.length = window_size ∧
    ∀ row ∈ w, ∃ t : Nat, t < n ∧ ∃ ht : t < src.length,
      row = src.get ⟨t, ht⟩

end StyleEmbedding

namespace LogSTFTMagnitudeLoss

/-- Source: `torch.nn.functional.l1_loss` with the default `mean`
reduction — the mean over all elements of the absolute elementwise
difference.  A tensor is embedded as the list of its entries (the mean
depends only on those). -/
noncomputable def l1_loss (input target : List ℝ) : ℝ :=
  (((input.zip target).map fun p => |p.1 - p.2|).sum) / (input.zip target).length

/-- Source: `LogSTFTMagnitudeLoss.forward(x_mag, y_mag)` returns
`F.l1_loss(torch.log(y_mag), torch.log(x_mag))`. -/
noncomputable def forward (x_mag y_mag : List ℝ) : ℝ :=
  l1_loss (y_mag.map Real.log) (x_mag.map Real.log)

/-- Specification-side definition for the refinement claim, written from
the spec's words rather than the source: the mean over all elements of the
absolute difference between `log (y_mag)` and `log (x_mag)`. -/
noncomputable def specLogMagL1 (x_mag y_mag : List ℝ) : ℝ :=
  (((x_mag.zip y_mag).map fun p => |Real.log p.2 - Real.log p.1|).sum) /
    x_mag.length

end LogSTFTMagnitudeLoss

namespace StyleEmbedding

lemma repeat2_length (l : Spectrogram) : (repeat2 l).length = 2 * l.length := by
  simp [repeat2]; omega

lemma repeat2_isRepOf (l : Spectrogram) : IsRepOf l (repeat2 l) := by
  refine ⟨⟨1, by rw [repeat2_length]; ring⟩, ?_⟩
  intro i h hb
  have hl : 0 < l.length := by
    rcases Nat.eq_zero_or_pos l.length with h0 | h0
    · rw [h0] at hb; exact absurd hb (by simp)
    · exact h0
  simp only [List.get_eq_getElem]
  rcases Nat.lt_or_ge i l.length with hi | hi
  · have hmod : i % l.length = i := Nat.mod_eq_of_lt hi
    simp only [hmod]
    exact List.getElem_append_left hi
  · have hi2 : i < l.length + l.length := by
      have := h; rw [repeat2_length] at this; omega
    have hmod : i % l.length = i - l.length := by
      rw [Nat.mod_eq_sub_mod hi, Nat.mod_eq_of_lt (by omega)]
    simp only [hmod]
    exact List.getElem_append_right hi

lemma isRepOf_trans {a b c : Spectrogram} (h1 : IsRepOf a b)
    (h2 : IsRepOf b c) : IsRepOf a c := by
  obtain ⟨⟨k1, hk1⟩, hidx1⟩ := h1
  obtain ⟨⟨k2, hk2⟩, hidx2⟩ := h2
  refine ⟨⟨k2 + k1, by rw [hk2, hk1, pow_add]; ring⟩, ?_⟩
  intro i h hb
  have ha : 0 < a.length := by
    rcases Nat.eq_zero_or_pos a.length with h0 | h0
    · rw [h0] at hb; exact absurd hb (by simp)
    · exact h0
  have hbpos : 0 < b.length := by rw [hk1]; positivity
  have hib : i % b.length < b.length := Nat.mod_lt _ hbpos
  rw [hidx2 i h hib]
  have hib2 : (i % b.length) % a.length < a.length := Nat.mod_lt _ ha
  rw [hidx1 _ hib hib2]
  have hdvd : a.length ∣ b.length := ⟨2 ^ k1, by rw [hk1]; ring⟩
  have hmm : i % b.length % a.length = i % a.length :=
    Nat.mod_mod_of_dvd i hdvd
  simp only [List.get_eq_getElem, hmm]

lemma isRepOf_refl (l : Spectrogram) : IsRepOf l l := by
  refine ⟨⟨0, by ring⟩, ?_⟩
  intro i h hb
  have hmod : i % l.length = i := Nat.mod_eq_of_lt h
  simp only [List.get_eq_getElem, hmod]

lemma doubleWhile_sound : ∀ (fuel : Nat) (l out : Spectrogram),
    doubleWhile fuel l = some out →
    window_size ≤ out.length ∧ IsRepOf l out := by
  intro fuel
  induction fuel with
  | zero => intro l out h; exact absurd h (by simp [doubleWhile])
  | succ fuel ih =>
    intro l out h
    rw [doubleWhile] at h
    split at h
    · obtain ⟨hlen, hrep⟩ := ih _ _ h
      exact ⟨hlen, isRepOf_trans (repeat2_isRepOf l) hrep⟩
    · cases h
      exact ⟨Nat.le_of_not_lt (by assumption), isRepOf_refl l⟩

lemma doubleWhile_total : ∀ (fuel : Nat) (l : Spectrogram),
    window_size ≤ 2 ^ fuel * l.length →
    ∃ out, doubleWhile (fuel + 1) l = some out := by
  intro fuel
  induction fuel with
  | zero =>
    intro l h
    simp only [pow_zero, one_mul] at h
    exact ⟨l, by rw [doubleWhile]; simp [Nat.not_lt.mpr h]⟩
  | succ fuel ih =>
    intro l h
    by_cases hl : l.length < window_size
    · have h2 : window_size ≤ 2 ^ fuel * (repeat2 l).length := by
        rw [repeat2_length]
        calc window_size ≤ 2 ^ (fuel + 1) * l.length := h
        _ = 2 ^ fuel * (2 * l.length) := by rw [pow_succ]; ring
      obtain ⟨out, hout⟩ := ih (repeat2 l) h2
      exact ⟨out, by rw [doubleWhile]; simp only [if_pos hl]; exact hout⟩
    · exact ⟨l, by rw [doubleWhile]; simp [hl]⟩

lemma doubleWhile_windowSize (l : Spectrogram) (hl : 0 < l.length) :
    ∃ out, doubleWhile window_size l = some out := by
  have h : window_size ≤ 2 ^ 255 * l.length := by
    calc window_size = 2 ^ 8 * 1 := by norm_num [window_size]
    _ ≤ 2 ^ 255 * l.length :=
      Nat.mul_le_mul (Nat.pow_le_pow_right (by norm_num) (by norm_num)) hl
  exact doubleWhile_total 255 l h

end StyleEmbedding

namespace StyleEmbedding

lemma selectWindow_eq_branch (spec : Spectrogram) (rng : RandSource)
    (h : spec.length = window_size) :
    selectWindow spec rng = some ([spec], rng) := by
  rw [selectWindow, if_neg (by omega), if_pos h]

lemma selectWindow_gt_branch (spec : Spectrogram) (rng : RandSource)
    (h : window_size < spec.length) :
    selectWindow spec rng =
      some ([(spec.drop (rng 0 % (spec.length - window_size))).take window_size],
        fun k => rng (k + 1)) := by
  rw [selectWindow, if_pos h, randint, if_neg (by omega)]

lemma window_length (spec : Spectrogram) (r : Nat)
    (h : r + window_size ≤ spec.length) :
    ((spec.drop r).take window_size).length = window_size := by
  simp only [List.length_take, List.length_drop]
  omega

lemma window_get (spec : Spectrogram) (r j : Nat)
    (hj : j < ((spec.drop r).take window_size).length)
    (hs : r + j < spec.length) :
    ((spec.drop r).take window_size).get ⟨j, hj⟩ = spec.get ⟨r + j, hs⟩ := by
  simp only [List.get_eq_getElem]
  rw [List.getElem_take, List.getElem_drop]

lemma processElement_sound (fuel : Nat) (src : Spectrogram) (n : Nat)
    (rng : RandSource) (ws : List Spectrogram) (rng' : RandSource)
    (hn : 1 ≤ n) (hns : n ≤ src.length)
    (h : processElement fuel src n rng = some (ws, rng')) :
    ∃ w r, ws = [w] ∧ w.length = window_size ∧
      ∀ j : Nat, ∀ hj : j < w.length,
        ∃ ht : (r + j) % n < src.length,
          (r + j) % n < n ∧ w.get ⟨j, hj⟩ = src.get ⟨(r + j) % n, ht⟩ := by
  rw [processElement] at h
  rcases hd : doubleWhile fuel (repeat2 (src.take n)) with _ | spec
  · rw [hd] at h; exact absurd h (by simp)
  rw [hd] at h
  replace h : selectWindow spec rng = some (ws, rng') := h
  obtain ⟨hlen, hrep⟩ := doubleWhile_sound fuel _ spec hd
  have hvalidrep : IsRepOf (src.take n) spec :=
    isRepOf_trans (repeat2_isRepOf (src.take n)) hrep
  have hvl : (src.take n).length = n := by
    rw [List.length_take]; omega
  have hnpos : 0 < n := hn
  -- a helper to turn an index into `spec` into a row of the valid region
  have key : ∀ i : Nat, ∀ hi : i < spec.length,
      ∃ ht : i % n < src.length, i % n < n ∧
        spec.get ⟨i, hi⟩ = src.get ⟨i % n, ht⟩ := by
    intro i hi
    have hmn : i % n < n := Nat.mod_lt _ hnpos
    have hms : i % n < src.length := lt_of_lt_of_le hmn hns
    refine ⟨hms, hmn, ?_⟩
    have hb : i % (src.take n).length < (src.take n).length := by
      rw [hvl]; exact hmn
    have := hvalidrep.2 i hi hb
    rw [this]
    simp only [List.get_eq_getElem]
    have hidx : i % (src.take n).length = i % n := by rw [hvl]
    simp only [hidx]
    exact List.getElem_take src
  rcases Nat.lt_or_ge window_size spec.length with hgt | hge
  · -- random-crop branch
    rw [selectWindow_gt_branch spec rng hgt] at h
    obtain ⟨hws, hrng⟩ : ([(spec.drop (rng 0 % (spec.length - window_size))).take
        window_size] = ws) ∧ ((fun k => rng (k + 1)) = rng') := by
      constructor <;> · injection h with h1; injection h1
    set r := rng 0 % (spec.length - window_size) with hr
    have hrlt : r < spec.length - window_size :=
      Nat.mod_lt _ (by omega)
    have hrw : r + window_size ≤ spec.length := by omega
    refine ⟨(spec.drop r).take window_size, r, hws.symm,
      window_length spec r hrw, ?_⟩
    intro j hj
    have hjw : j < window_size := by
      rw [window_length spec r hrw] at hj; exact hj
    have hs : r + j < spec.length := by omega
    obtain ⟨ht, hm, hval⟩ := key (r + j) hs
    exact ⟨ht, hm, by rw [window_get spec r j hj hs]; exact hval⟩
  · -- exact-length branch
    have heq : spec.length = window_size := by omega
    rw [selectWindow_eq_branch spec rng heq] at h
    obtain ⟨hws, hrng⟩ : ([spec] = ws) ∧ (rng = rng') := by
      constructor <;> · injection h with h1; injection h1
    refine ⟨spec, 0, hws.symm, heq, ?_⟩
    intro j hj
    have hs : 0 + j < spec.length := by omega
    obtain ⟨ht, hm, hval⟩ := key (0 + j) hs
    refine ⟨ht, hm, ?_⟩
    have : spec.get ⟨j, hj⟩ = spec.get ⟨0 + j, hs⟩ := by
      simp only [List.get_eq_getElem]
      simp only [Nat.zero_add]
    rw [this]
    exact hval

lemma processElement_windowOf (fuel : Nat) (src : Spectrogram) (n : Nat)
    (rng : RandSource) (ws : List Spectrogram) (rng' : RandSource)
    (hn : 1 ≤ n) (hns : n ≤ src.length)
    (h : processElement fuel src n rng = some (ws, rng')) :
    ∃ w, ws = [w] ∧ WindowOf src n w := by
  obtain ⟨w, r, hws, hwl, hidx⟩ :=
    processElement_sound fuel src n rng ws rng' hn hns h
  refine ⟨w, hws, hwl, ?_⟩
  intro row hrow
  obtain ⟨⟨j, hj⟩, hget⟩ := List.mem_iff_get.mp hrow
  obtain ⟨ht, hm, hval⟩ := hidx j hj
  exact ⟨(r + j) % n, hm, ht, by rw [← hget, hval]⟩

lemma selectWindow_total (spec : Spectrogram) (rng : RandSource)
    (h : window_size ≤ spec.length) :
    ∃ ws rng', selectWindow spec rng = some (ws, rng') := by
  rcases Nat.lt_or_ge window_size spec.length with hgt | hge
  · exact ⟨_, _, selectWindow_gt_branch spec rng hgt⟩
  · exact ⟨_, _, selectWindow_eq_branch spec rng (by omega)⟩

lemma processElement_total (src : Spectrogram) (n : Nat) (rng : RandSource)
    (hn : 1 ≤ n) (hns : n ≤ src.length) :
    ∃ ws rng', processElement window_size src n rng = some (ws, rng') := by
  have hbase : 0 < (repeat2 (src.take n)).length := by
    rw [repeat2_length, List.length_take]; omega
  obtain ⟨spec, hspec⟩ := doubleWhile_windowSize _ hbase
  obtain ⟨hlen, _⟩ := doubleWhile_sound _ _ _ hspec
  obtain ⟨ws, rng', hsel⟩ := selectWindow_total spec rng hlen
  exact ⟨ws, rng', by rw [processElement, hspec]; exact hsel⟩

end StyleEmbedding

namespace StyleEmbedding

lemma windowBatch_sound (fuel : Nat) (batch : List Spectrogram)
    (lengths : List Nat) (rng rng' : RandSource) (out : List Spectrogram)
    (hvalid : List.Forall₂ ValidPair batch lengths)
    (hrun : windowBatch fuel batch lengths rng = some (out, rng')) :
    out.length = batch.length ∧
      List.Forall₂ (fun p w => WindowOf p.1 p.2 w) (batch.zip lengths) out := by
  induction hvalid generalizing rng rng' out with
  | nil =>
    replace hrun : some (([] : List Spectrogram), rng) = some (out, rng') := hrun
    have h1 : ([] : List Spectrogram) = out :=
      congrArg Prod.fst (Option.some.inj hrun)
    subst h1
    exact ⟨rfl, List.Forall₂.nil⟩
  | @cons src n batch lengths hpair hrest ih =>
    rcases hpe : processElement fuel src n rng with _ | ⟨ws, rng1⟩
    · rw [windowBatch, hpe] at hrun; exact absurd hrun (by simp)
    rcases hwb : windowBatch fuel batch lengths rng1 with _ | ⟨out2, rng2⟩
    · rw [windowBatch, hpe] at hrun
      replace hrun :
          (match windowBatch fuel batch lengths rng1 with
            | none => none
            | some (out, rng'') => some (ws ++ out, rng'')) = some (out, rng') := hrun
      rw [hwb] at hrun
      exact absurd hrun (by simp)
    · rw [windowBatch, hpe] at hrun
      replace hrun :
          (match windowBatch fuel batch lengths rng1 with
            | none => none
            | some (out, rng'') => some (ws ++ out, rng'')) = some (out, rng') := hrun
      rw [hwb] at hrun
      replace hrun : some (ws ++ out2, rng2) = some (out, rng') := hrun
      have hout : ws ++ out2 = out := by
        have := Option.some.inj hrun; exact congrArg Prod.fst this
      obtain ⟨w, hws, hwof⟩ :=
        processElement_windowOf fuel src n rng ws rng1 hpair.1 hpair.2 hpe
      obtain ⟨hlen2, hforall2⟩ := ih rng1 rng2 out2 hwb
      subst hws
      rw [← hout]
      constructor
      · simp [hlen2]
      · exact List.Forall₂.cons hwof hforall2

lemma windowBatch_total (batch : List Spectrogram) (lengths : List Nat)
    (rng : RandSource)
    (hvalid : List.Forall₂ ValidPair batch lengths) :
    ∃ out rng', windowBatch window_size batch lengths rng = some (out, rng') := by
  induction hvalid generalizing rng with
  | nil => exact ⟨[], rng, rfl⟩
  | @cons src n batch lengths hpair hrest ih =>
    obtain ⟨ws, rng1, hpe⟩ := processElement_total src n rng hpair.1 hpair.2
    obtain ⟨out2, rng2, hwb⟩ := ih rng1
    exact ⟨ws ++ out2, rng2, by rw [windowBatch, hpe]; simp only [hwb]⟩

lemma windowBatch_shape (batch : List Spectrogram) (lengths : List Nat)
    (rng : RandSource) (F : Nat)
    (hvalid : List.Forall₂ ValidPair batch lengths)
    (hF : ∀ src ∈ batch, ∀ row ∈ src, row.length = F) :
    ∃ out rng', windowBatch window_size batch lengths rng = some (out, rng') ∧
      out.length = batch.length ∧
      ∀ w ∈ out, w.length = window_size ∧ ∀ row ∈ w, row.length = F := by
  obtain ⟨out, rng', hrun⟩ := windowBatch_total batch lengths rng hvalid
  obtain ⟨hlen, hforall⟩ :=
    windowBatch_sound window_size batch lengths rng rng' out hvalid hrun
  refine ⟨out, rng', hrun, hlen, ?_⟩
  intro w hw
  obtain ⟨⟨i, hi⟩, hget⟩ := List.mem_iff_get.mp hw
  obtain ⟨hzl, hz⟩ := List.forall₂_iff_get.mp hforall
  have hiz : i < (batch.zip lengths).length := by omega
  have hwof : WindowOf ((batch.zip lengths).get ⟨i, hiz⟩).1
      ((batch.zip lengths).get ⟨i, hiz⟩).2 (out.get ⟨i, hi⟩) := hz i hiz hi
  rw [hget] at hwof
  obtain ⟨hwl, hrows⟩ := hwof
  refine ⟨hwl, ?_⟩
  intro row hrow
  obtain ⟨t, _, ht, hteq⟩ := hrows row hrow
  have hminlt : i < min batch.length lengths.length := by
    rw [← List.length_zip]; exact hiz
  have hib : i < batch.length := lt_of_lt_of_le hminlt (min_le_left _ _)
  have hil : i < lengths.length := lt_of_lt_of_le hminlt (min_le_right _ _)
  have hsrcmem : ((batch.zip lengths).get ⟨i, hiz⟩).1 ∈ batch := by
    have hzeq : (batch.zip lengths).get ⟨i, hiz⟩ =
        (batch.get ⟨i, hib⟩, lengths.get ⟨i, hil⟩) := by
      simp only [List.get_eq_getElem]
      rw [List.getElem_zip]
    rw [hzeq]
    exact List.get_mem batch i hib
  have hrowmem : row ∈ ((batch.zip lengths).get ⟨i, hiz⟩).1 := by
    rw [hteq]; exact List.get_mem _ t ht
  exact hF _ hsrcmem _ hrowmem

end StyleEmbedding

namespace StyleEmbedding

lemma doubleWhile_nil : ∀ fuel : Nat, doubleWhile fuel [] = none := by
  intro fuel
  induction fuel with
  | zero => rfl
  | succ f ih =>
    rw [doubleWhile, if_pos (by norm_num [window_size])]
    exact ih

lemma doubleWhile_windowSize_of_ge (l : Spectrogram)
    (h : window_size ≤ l.length) : doubleWhile window_size l = some l := by
  show doubleWhile (255 + 1) l = some l
  rw [doubleWhile, if_neg (by omega)]

end StyleEmbedding

namespace LogSTFTMagnitudeLoss

lemma zip_self_map (l : List ℝ) : l.zip l = l.map fun a => (a, a) := by
  induction l with
  | nil => rfl
  | cons a l ih => simp only [List.zip_cons_cons, List.map_cons, ih]

lemma l1_loss_comm (a b : List ℝ) : l1_loss a b = l1_loss b a := by
  unfold l1_loss
  rw [show b.zip a = (a.zip b).map Prod.swap from (List.zip_swap a b).symm,
    List.map_map, List.length_map]
  congr 1
  refine congrArg List.sum (List.map_congr_left fun p _ => ?_)
  show |p.1 - p.2| = |p.2 - p.1|
  exact abs_sub_comm p.1 p.2

lemma l1_loss_self (a : List ℝ) : l1_loss a a = 0 := by
  unfold l1_loss
  rw [zip_self_map, List.map_map]
  have hz : ((fun p : ℝ × ℝ => |p.1 - p.2|) ∘ fun x => (x, x)) =
      fun _ => (0 : ℝ) := by
    funext v; simp
  rw [hz]
  simp

end LogSTFTMagnitudeLoss

namespace StyleEmbedding

/-- C3: the spec demands an `InvalidInputError` for malformed input, a
length entry of `0` in particular.  The code performs no validation at
all: with a length entry of `0` the slice is empty, doubling an empty
sequence leaves it empty, and the `while` loop never exits — for every
fuel the loop body of `forward` yields no result and raises nothing. -/
theorem C3_zero_length_diverges (fuel : Nat) (src : Spectrogram)
    (rng : RandSource) :
    processElement fuel src 0 rng = none := by
  rw [processElement]
  have h0 : src.take 0 = [] := List.take_zero src
  rw [h0]
  have h1 : repeat2 [] = ([] : Spectrogram) := rfl
  rw [h1, doubleWhile_nil fuel]

/-- C4: for every true length `n ≥ 1`, the doubling step (one unconditional
doubling, then doubling while the length is strictly below `window_size`)
terminates, and the resulting length is at least `window_size`. -/
theorem C4_doubling_terminates_reaches_window (spec : Spectrogram)
    (h : 1 ≤ spec.length) :
    ∃ out, doubleWhile window_size (repeat2 spec) = some out ∧
      window_size ≤ out.length := by
  have hbase : 0 < (repeat2 spec).length := by
    rw [repeat2_length]; omega
  obtain ⟨out, hout⟩ := doubleWhile_windowSize _ hbase
  exact ⟨out, hout, (doubleWhile_sound _ _ _ hout).1⟩

/-- Witness for C4 at a sequence of true length 1: the loop terminates
after finitely many doublings and reaches at least `window_size` rows. -/
theorem C4_doubling_terminates_reaches_window_witness :
    1 ≤ ([[(0 : ℝ)]] : Spectrogram).length ∧
    ∃ out, doubleWhile window_size (repeat2 [[(0 : ℝ)]]) = some out ∧
      window_size ≤ out.length :=
  ⟨by norm_num, C4_doubling_terminates_reaches_window [[(0 : ℝ)]] (by norm_num)⟩

/-- C9: in the branch where the doubled length strictly exceeds
`window_size`, the random draw and the slice are always well-defined:
the range has at least one element, the draw succeeds, the drawn offset
keeps the slice fully in bounds, and the slice has exactly `window_size`
rows. -/
theorem C9_random_branch_well_defined (spec : Spectrogram)
    (rng : RandSource) (h : window_size < spec.length) :
    1 ≤ spec.length - window_size ∧
    ∃ r rng', randint (spec.length - window_size) rng = some (r, rng') ∧
      r + window_size ≤ spec.length ∧
      selectWindow spec rng = some ([(spec.drop r).take window_size], rng') ∧
      ((spec.drop r).take window_size).length = window_size := by
  have hpos : 0 < spec.length - window_size := by omega
  have hrlt : rng 0 % (spec.length - window_size) < spec.length - window_size :=
    Nat.mod_lt _ hpos
  refine ⟨hpos, rng 0 % (spec.length - window_size), fun k => rng (k + 1),
    ?_, by omega, selectWindow_gt_branch spec rng h,
    window_length _ _ (by omega)⟩
  rw [randint, if_neg (by omega)]

set_option maxRecDepth 4000 in
/-- Witness for C9 at a doubled sequence of 257 rows. -/
theorem C9_random_branch_well_defined_witness :
    window_size < (List.replicate 257 ([] : Row)).length ∧
    (1 ≤ (List.replicate 257 ([] : Row)).length - window_size ∧
    ∃ r rng', randint ((List.replicate 257 ([] : Row)).length - window_size)
        (fun _ => 0) = some (r, rng') ∧
      r + window_size ≤ (List.replicate 257 ([] : Row)).length ∧
      selectWindow (List.replicate 257 ([] : Row)) (fun _ => 0) =
        some ([((List.replicate 257 ([] : Row)).drop r).take window_size], rng') ∧
      (((List.replicate 257 ([] : Row)).drop r).take window_size).length =
        window_size) :=
  ⟨by rw [List.length_replicate]; norm_num [window_size],
    C9_random_branch_well_defined _ _
      (by rw [List.length_replicate]; norm_num [window_size])⟩

end StyleEmbedding

namespace LogSTFTMagnitudeLoss

/-- C8: `LogSTFTMagnitudeLoss.forward(x_mag, y_mag)`, for tensors of
strictly positive entries, returns exactly the L1 comparison of log
magnitudes: the mean over all elements of the absolute difference between
`log(y_mag)` and `log(x_mag)`. -/
theorem C8_forward_is_mean_log_abs_diff (x_mag y_mag : List ℝ)
    (hlen : x_mag.length = y_mag.length)
    (hx : ∀ a ∈ x_mag, 0 < a) (hy : ∀ a ∈ y_mag, 0 < a) :
    forward x_mag y_mag = specLogMagL1 x_mag y_mag := by
  have hnum : ((y_mag.map Real.log).zip (x_mag.map Real.log)).map
      (fun p => |p.1 - p.2|) =
      (x_mag.zip y_mag).map fun p => |Real.log p.2 - Real.log p.1| := by
    rw [List.zip_map,
      show y_mag.zip x_mag = (x_mag.zip y_mag).map Prod.swap from
        (List.zip_swap x_mag y_mag).symm,
      List.map_map, List.map_map]
    exact List.map_congr_left fun p _ => rfl
  have hden : ((y_mag.map Real.log).zip (x_mag.map Real.log)).length =
      x_mag.length := by
    rw [List.length_zip, List.length_map, List.length_map, hlen]
    exact min_self _
  unfold forward l1_loss specLogMagL1
  rw [hnum, hden]

/-- Witness for C8 at the one-element tensors `[2]` and `[3]`. -/
theorem C8_forward_is_mean_log_abs_diff_witness :
    ([(2 : ℝ)].length = [(3 : ℝ)].length) ∧
    (∀ a ∈ [(2 : ℝ)], 0 < a) ∧ (∀ a ∈ [(3 : ℝ)], 0 < a) ∧
    forward [(2 : ℝ)] [(3 : ℝ)] = specLogMagL1 [(2 : ℝ)] [(3 : ℝ)] :=
  ⟨rfl, by norm_num, by norm_num,
    C8_forward_is_mean_log_abs_diff [(2 : ℝ)] [(3 : ℝ)] rfl (by norm_num)
      (by norm_num)⟩

/-- C10: the loss is symmetric in its two arguments and vanishes when both
arguments coincide, for tensors of strictly positive entries. -/
theorem C10_forward_symm_and_self_zero (x_mag y_mag : List ℝ)
    (hlen : x_mag.length = y_mag.length)
    (hx : ∀ a ∈ x_mag, 0 < a) (hy : ∀ a ∈ y_mag, 0 < a) :
    forward x_mag y_mag = forward y_mag x_mag ∧ forward x_mag x_mag = 0 :=
  ⟨l1_loss_comm _ _, l1_loss_self _⟩

/-- Witness for C10 at the tensors `[1, 2]` and `[2, 4]`. -/
theorem C10_forward_symm_and_self_zero_witness :
    ([(1 : ℝ), 2].length = [(2 : ℝ), 4].length) ∧
    (∀ a ∈ [(1 : ℝ), 2], 0 < a) ∧ (∀ a ∈ [(2 : ℝ), 4], 0 < a) ∧
    (forward [(1 : ℝ), 2] [(2 : ℝ), 4] = forward [(2 : ℝ), 4] [(1 : ℝ), 2] ∧
      forward [(1 : ℝ), 2] [(1 : ℝ), 2] = 0) :=
  ⟨rfl, by norm_num [List.forall_mem_cons], by norm_num [List.forall_mem_cons],
    C10_forward_symm_and_self_zero [(1 : ℝ), 2] [(2 : ℝ), 4] rfl
      (by norm_num [List.forall_mem_cons]) (by norm_num [List.forall_mem_cons])⟩

end LogSTFTMagnitudeLoss

namespace StyleEmbedding

/-- C1: for every batch element with true length `n`, `1 ≤ n ≤ L_max`,
every row of the produced window equals a row of that source sequence at
an index strictly below `n` — no value of the padded region (indices
`≥ n`) ever appears in the window. -/
theorem C1_windows_from_valid_region (fuel : Nat) (batch : List Spectrogram)
    (lengths : List Nat) (rng rng' : RandSource) (out : List Spectrogram)
    (hvalid : List.Forall₂ ValidPair batch lengths)
    (hrun : windowBatch fuel batch lengths rng = some (out, rng')) :
    List.Forall₂ (fun p w => ∀ row ∈ w, ∃ t : Nat, t < p.2 ∧
        ∃ ht : t < p.1.length, row = p.1.get ⟨t, ht⟩)
      (batch.zip lengths) out :=
  ((windowBatch_sound fuel batch lengths rng rng' out hvalid hrun).2).imp
    fun _ _ hw => hw.2

set_option maxRecDepth 8000 in
/-- Witness for C1 at a batch of one sequence of true length 128. -/
theorem C1_windows_from_valid_region_witness :
    List.Forall₂ ValidPair [List.replicate 128 ([] : Row)] [128] ∧
    List.Forall₂ (fun p w => ∀ row ∈ w, ∃ t : Nat, t < p.2 ∧
        ∃ ht : t < p.1.length, row = p.1.get ⟨t, ht⟩)
      ([List.replicate 128 ([] : Row)].zip [128])
      [List.replicate 128 ([] : Row) ++ List.replicate 128 ([] : Row)] := by
  have hvalid : List.Forall₂ ValidPair [List.replicate 128 ([] : Row)] [128] := by
    refine List.Forall₂.cons ?_ List.Forall₂.nil
    refine ⟨by norm_num, ?_⟩
    rw [List.length_replicate]
  exact ⟨hvalid, C1_windows_from_valid_region window_size _ _ (fun _ => 0)
    (fun _ => 0) _ hvalid rfl⟩

/-- Counterexample to C2 as stated: the claim covers every batch of shape
`(N, L_max, F)`, but at `N = 0` (empty batch, empty length vector — a
vacuously valid input) the stage produces no stacked tensor at all:
`torch.stack` of the empty window list raises `RuntimeError`, whereas the
claim asserts a stacked batch of shape `(0, 256, F)`. -/
theorem C2_output_shape_counterexample :
    stackedWindowBatch window_size [] [] (fun _ => 0 : RandSource) = none ∧
    ¬ ∃ out, ∃ rng' : RandSource,
      stackedWindowBatch window_size [] [] (fun _ => 0 : RandSource) =
        some (out, rng') := by
  refine ⟨rfl, ?_⟩
  rintro ⟨out, rng', h⟩
  rw [show stackedWindowBatch window_size [] [] (fun _ => 0 : RandSource) =
    none from rfl] at h
  exact Option.noConfusion h

/-- C2, amended: for every input batch of shape `(N, L_max, F)` with
`N ≥ 1` and a length vector of `N` entries each in `[1, L_max]`, the
stacked window batch passed to the aggregator exists and consists of
exactly `N` windows of exactly 256 time-steps and `F` feature columns
each.  (At `N = 0` the stack step raises instead of producing an empty
stacked tensor — see the counterexample.) -/
theorem C2_output_shape (N Lmax F : Nat) (batch : List Spectrogram)
    (lengths : List Nat) (rng : RandSource) (hN1 : 1 ≤ N)
    (hN : batch.length = N) (hlenN : lengths.length = N)
    (hLmax : ∀ src ∈ batch, src.length = Lmax)
    (hF : ∀ src ∈ batch, ∀ row ∈ src, row.length = F)
    (hn : ∀ n ∈ lengths, 1 ≤ n ∧ n ≤ Lmax) :
    ∃ out rng', stackedWindowBatch window_size batch lengths rng =
        some (out, rng') ∧
      out.length = N ∧
      ∀ w ∈ out, w.length = 256 ∧ ∀ row ∈ w, row.length = F := by
  have hvalid : List.Forall₂ ValidPair batch lengths := by
    rw [List.forall₂_iff_get]
    refine ⟨by omega, ?_⟩
    intro i h1 h2
    obtain ⟨ha, hb⟩ := hn _ (List.get_mem lengths i h2)
    exact ⟨ha, le_trans hb (le_of_eq (hLmax _ (List.get_mem batch i h1)).symm)⟩
  obtain ⟨out, rng', hrun, hlen, hshape⟩ :=
    windowBatch_shape batch lengths rng F hvalid hF
  have houtN : out.length = N := by omega
  have hstack : stack out = some out := by
    cases out with
    | nil =>
      exfalso
      rw [List.length_nil] at houtN
      omega
    | cons w ws => rfl
  refine ⟨out, rng', ?_, houtN, ?_⟩
  · simp only [stackedWindowBatch, hrun, hstack]
  · intro w hw
    obtain ⟨hwl, hrows⟩ := hshape w hw
    exact ⟨by rw [hwl]; rfl, hrows⟩

/-- Witness for C2 at a batch of one sequence (`N = 1`, `L_max = 128`,
`F = 1`, true length 128). -/
theorem C2_output_shape_witness :
    1 ≤ 1 ∧
    ([List.replicate 128 [(0 : ℝ)]] : List Spectrogram).length = 1 ∧
    ([128] : List Nat).length = 1 ∧
    (∀ src ∈ [List.replicate 128 [(0 : ℝ)]], src.length = 128) ∧
    (∀ src ∈ [List.replicate 128 [(0 : ℝ)]], ∀ row ∈ src, row.length = 1) ∧
    (∀ n ∈ [128], 1 ≤ n ∧ n ≤ 128) ∧
    ∃ out rng', stackedWindowBatch window_size
        [List.replicate 128 [(0 : ℝ)]] [128]
        (fun _ => 0) = some (out, rng') ∧
      out.length = 1 ∧
      ∀ w ∈ out, w.length = 256 ∧ ∀ row ∈ w, row.length = 1 := by
  have hLmax : ∀ src ∈ [List.replicate 128 [(0 : ℝ)]], src.length = 128 := by
    intro src hs
    rw [List.mem_singleton] at hs
    rw [hs, List.length_replicate]
  have hF : ∀ src ∈ [List.replicate 128 [(0 : ℝ)]], ∀ row ∈ src,
      row.length = 1 := by
    intro src hs row hr
    rw [List.mem_singleton] at hs
    rw [hs] at hr
    rw [List.eq_of_mem_replicate hr]
    rfl
  have hn : ∀ n ∈ [128], 1 ≤ n ∧ n ≤ 128 := by
    intro n hnm
    rw [List.mem_singleton] at hnm
    omega
  exact ⟨le_refl 1, rfl, rfl, hLmax, hF, hn,
    C2_output_shape 1 128 1 _ _ (fun _ => 0) (le_refl 1) rfl rfl hLmax hF hn⟩

/-- C7: the windowing stage takes the random source as an explicit input;
with the same source state two runs on identical inputs coincide, and for
any two source states both runs succeed with outputs of identical shape
(`N` windows of `window_size` rows of `F` features). -/
theorem C7_reproducible_and_shape_stable (batch : List Spectrogram)
    (lengths : List Nat) (F : Nat) (rng₁ rng₂ : RandSource)
    (hvalid : List.Forall₂ ValidPair batch lengths)
    (hF : ∀ src ∈ batch, ∀ row ∈ src, row.length = F) :
    (rng₁ = rng₂ → windowBatch window_size batch lengths rng₁ =
      windowBatch window_size batch lengths rng₂) ∧
    ∃ out₁ rng₁' out₂ rng₂',
      windowBatch window_size batch lengths rng₁ = some (out₁, rng₁') ∧
      windowBatch window_size batch lengths rng₂ = some (out₂, rng₂') ∧
      out₁.length = out₂.length ∧
      (∀ w ∈ out₁, w.length = window_size ∧ ∀ row ∈ w, row.length = F) ∧
      (∀ w ∈ out₂, w.length = window_size ∧ ∀ row ∈ w, row.length = F) := by
  refine ⟨fun h => by rw [h], ?_⟩
  obtain ⟨out₁, rng₁', h1, hl1, hs1⟩ :=
    windowBatch_shape batch lengths rng₁ F hvalid hF
  obtain ⟨out₂, rng₂', h2, hl2, hs2⟩ :=
    windowBatch_shape batch lengths rng₂ F hvalid hF
  exact ⟨out₁, rng₁', out₂, rng₂', h1, h2, by omega, hs1, hs2⟩

/-- Witness for C7 at a batch of one sequence of true length 128 and the
two constant random sources `0` and `1`. -/
theorem C7_reproducible_and_shape_stable_witness :
    List.Forall₂ ValidPair [List.replicate 128 [(0 : ℝ)]] [128] ∧
    (∀ src ∈ [List.replicate 128 [(0 : ℝ)]], ∀ row ∈ src, row.length = 1) ∧
    (((fun _ => 0 : RandSource) = (fun _ => 1 : RandSource) →
      windowBatch window_size
        [List.replicate 128 [(0 : ℝ)]] [128] (fun _ => 0 : RandSource) =
      windowBatch window_size [List.replicate 128 [(0 : ℝ)]] [128]
        (fun _ => 1 : RandSource)) ∧
    ∃ out₁ rng₁' out₂ rng₂',
      windowBatch window_size [List.replicate 128 [(0 : ℝ)]] [128]
        (fun _ => 0 : RandSource) = some (out₁, rng₁') ∧
      windowBatch window_size [List.replicate 128 [(0 : ℝ)]] [128]
        (fun _ => 1 : RandSource) = some (out₂, rng₂') ∧
      out₁.length = out₂.length ∧
      (∀ w ∈ out₁, w.length = window_size ∧ ∀ row ∈ w, row.length = 1) ∧
      (∀ w ∈ out₂, w.length = window_size ∧ ∀ row ∈ w, row.length = 1)) := by
  have hvalid : List.Forall₂ ValidPair [List.replicate 128 [(0 : ℝ)]] [128] := by
    refine List.Forall₂.cons ⟨by norm_num, ?_⟩ List.Forall₂.nil
    rw [List.length_replicate]
  have hF : ∀ src ∈ [List.replicate 128 [(0 : ℝ)]], ∀ row ∈ src,
      row.length = 1 := by
    intro src hs row hr
    rw [List.mem_singleton] at hs
    rw [hs] at hr
    rw [List.eq_of_mem_replicate hr]
    rfl
  exact ⟨hvalid, hF,
    C7_reproducible_and_shape_stable _ _ 1 (fun _ => 0) (fun _ => 1) hvalid hF⟩

end StyleEmbedding

namespace StyleEmbedding

/-- C6: when the doubled length equals `window_size` exactly, the window
is used unmodified through the separate `==` branch: the random source is
returned untouched and the result is produced without error (no draw from
an empty range is attempted). -/
theorem C6_exact_window_no_randomness (src : Spectrogram) (n : Nat)
    (rng : RandSource) (spec : Spectrogram)
    (hd : doubleWhile window_size (repeat2 (src.take n)) = some spec)
    (hW : spec.length = window_size) :
    processElement window_size src n rng = some ([spec], rng) := by
  rw [processElement, hd]
  show selectWindow spec rng = some ([spec], rng)
  exact selectWindow_eq_branch spec rng hW

set_option maxRecDepth 8000 in
/-- Witness for C6 at a sequence of true length 128 = `window_size / 2`:
one unconditional doubling reaches exactly `window_size`. -/
theorem C6_exact_window_no_randomness_witness :
    doubleWhile window_size
        (repeat2 ((List.replicate 128 [(0 : ℝ)] : Spectrogram).take 128)) =
      some (repeat2 ((List.replicate 128 [(0 : ℝ)] : Spectrogram).take 128)) ∧
    (repeat2 ((List.replicate 128 [(0 : ℝ)] : Spectrogram).take 128)).length =
      window_size ∧
    processElement window_size (List.replicate 128 [(0 : ℝ)]) 128
        (fun _ => 0 : RandSource) =
      some ([repeat2 ((List.replicate 128 [(0 : ℝ)] : Spectrogram).take 128)],
        (fun _ => 0 : RandSource)) := by
  have hlen : (repeat2 ((List.replicate 128 [(0 : ℝ)] :
      Spectrogram).take 128)).length = window_size := by
    rw [repeat2_length, List.length_take, List.length_replicate]
    rw [min_self]
    rfl
  have hd : doubleWhile window_size
      (repeat2 ((List.replicate 128 [(0 : ℝ)] : Spectrogram).take 128)) =
      some (repeat2 ((List.replicate 128 [(0 : ℝ)] : Spectrogram).take 128)) :=
    doubleWhile_windowSize_of_ge _ (le_of_eq hlen.symm)
  exact ⟨hd, hlen,
    C6_exact_window_no_randomness _ 128 (fun _ => 0 : RandSource) _ hd hlen⟩

end StyleEmbedding

namespace StyleEmbedding

/-- C5: for a single sequence of true length 142, one doubling yields 284
rows, the offset is drawn from `[0, 28)` (and every offset of that range
is attained by some random-source state), the output is the contiguous
`window_size`-row slice at that offset with shape `(1, 256, 80)`, and each
output row equals the source row at the offset-shifted index taken modulo
142. -/
theorem C5_gt_branch_uniform_offset_and_content (src : Spectrogram)
    (rng : RandSource) (hsrc : 142 ≤ src.length)
    (hF : ∀ row ∈ src, row.length = 80) :
    ∃ w r, ∃ rng' : RandSource,
      windowBatch window_size [src] [142] rng = some ([w], rng') ∧
      (repeat2 (src.take 142)).length = 284 ∧
      r < 28 ∧
      w = ((repeat2 (src.take 142)).drop r).take window_size ∧
      w.length = window_size ∧
      (∀ row ∈ w, row.length = 80) ∧
      (∀ j : Nat, ∀ hj : j < w.length, ∃ ht : (r + j) % 142 < src.length,
        w.get ⟨j, hj⟩ = src.get ⟨(r + j) % 142, ht⟩) ∧
      (∀ t : Nat, t < 28 → ∃ rngt rngt' : RandSource,
        windowBatch window_size [src] [142] rngt =
          some ([((repeat2 (src.take 142)).drop t).take window_size], rngt')) := by
  have h256 : window_size = 256 := rfl
  have htake : (src.take 142).length = 142 := by
    rw [List.length_take]; omega
  have hblen : (repeat2 (src.take 142)).length = 284 := by
    rw [repeat2_length, htake]
  have hgt : window_size < (repeat2 (src.take 142)).length := by
    rw [hblen]; omega
  have hd : doubleWhile window_size (repeat2 (src.take 142)) =
      some (repeat2 (src.take 142)) :=
    doubleWhile_windowSize_of_ge _ (le_of_lt hgt)
  have hsub : (repeat2 (src.take 142)).length - window_size = 28 := by
    rw [hblen]; omega
  have hrun : ∀ rng0 : RandSource,
      windowBatch window_size [src] [142] rng0 =
        some ([((repeat2 (src.take 142)).drop (rng0 0 % 28)).take window_size],
          fun k => rng0 (k + 1)) := by
    intro rng0
    have hsel := selectWindow_gt_branch (repeat2 (src.take 142)) rng0 hgt
    rw [hsub] at hsel
    have hpe : processElement window_size src 142 rng0 =
        some ([((repeat2 (src.take 142)).drop (rng0 0 % 28)).take window_size],
          fun k => rng0 (k + 1)) := by
      rw [processElement, hd]
      show selectWindow (repeat2 (src.take 142)) rng0 = _
      exact hsel
    rw [windowBatch, hpe]
    rfl
  have hr28 : rng 0 % 28 < 28 := Nat.mod_lt _ (by norm_num)
  have hrw : rng 0 % 28 + window_size ≤ (repeat2 (src.take 142)).length := by
    rw [hblen]; omega
  have key : ∀ j : Nat,
      ∀ hj : j < (((repeat2 (src.take 142)).drop (rng 0 % 28)).take
        window_size).length,
      ∃ ht : (rng 0 % 28 + j) % 142 < src.length,
        (((repeat2 (src.take 142)).drop (rng 0 % 28)).take
            window_size).get ⟨j, hj⟩ =
          src.get ⟨(rng 0 % 28 + j) % 142, ht⟩ := by
    intro j hj
    have hj256 : j < window_size := by
      rw [window_length _ _ hrw] at hj; exact hj
    have hsb : rng 0 % 28 + j < (repeat2 (src.take 142)).length := by
      rw [hblen]; omega
    have hget1 := window_get (repeat2 (src.take 142)) (rng 0 % 28) j hj hsb
    have hmodlt : (rng 0 % 28 + j) % (src.take 142).length <
        (src.take 142).length := by
      rw [htake]; exact Nat.mod_lt _ (by norm_num)
    have hget2 := (repeat2_isRepOf (src.take 142)).2 (rng 0 % 28 + j) hsb hmodlt
    have ht : (rng 0 % 28 + j) % 142 < src.length :=
      lt_of_lt_of_le (Nat.mod_lt _ (by norm_num)) hsrc
    refine ⟨ht, ?_⟩
    rw [hget1, hget2]
    simp only [List.get_eq_getElem, htake]
    exact List.getElem_take src
  have hrows : ∀ row ∈ ((repeat2 (src.take 142)).drop (rng 0 % 28)).take
      window_size, row.length = 80 := by
    intro row hrow
    obtain ⟨⟨j, hj⟩, hget⟩ := List.mem_iff_get.mp hrow
    obtain ⟨ht, hval⟩ := key j hj
    rw [← hget, hval]
    exact hF _ (List.get_mem src _ ht)
  have hatt : ∀ t : Nat, t < 28 → ∃ rngt rngt' : RandSource,
      windowBatch window_size [src] [142] rngt =
        some ([((repeat2 (src.take 142)).drop t).take window_size], rngt') := by
    intro t hht
    refine ⟨(fun _ => t : RandSource), fun k => t, ?_⟩
    rw [hrun (fun _ => t : RandSource)]
    have hmt : (fun _ => t : RandSource) 0 % 28 = t := Nat.mod_eq_of_lt hht
    rw [hmt]
  exact ⟨((repeat2 (src.take 142)).drop (rng 0 % 28)).take window_size,
    rng 0 % 28, fun k => rng (k + 1), hrun rng, hblen, hr28, rfl,
    window_length _ _ hrw, hrows, key, hatt⟩

end StyleEmbedding

namespace StyleEmbedding

/-- Witness for C5 at a concrete batch of one sequence with `F = 80`,
true length 142 and the constant-zero random source. -/
theorem C5_gt_branch_uniform_offset_and_content_witness :
    142 ≤ (List.replicate 142 (List.replicate 80 (0 : ℝ)) :
      Spectrogram).length ∧
    (∀ row ∈ (List.replicate 142 (List.replicate 80 (0 : ℝ)) : Spectrogram),
      row.length = 80) ∧
    ∃ w r, ∃ rng' : RandSource,
      windowBatch window_size [List.replicate 142 (List.replicate 80 (0 : ℝ))]
          [142] (fun _ => 0 : RandSource) = some ([w], rng') ∧
      (repeat2 ((List.replicate 142 (List.replicate 80 (0 : ℝ)) :
        Spectrogram).take 142)).length = 284 ∧
      r < 28 ∧
      w = ((repeat2 ((List.replicate 142 (List.replicate 80 (0 : ℝ)) :
        Spectrogram).take 142)).drop r).take window_size ∧
      w.length = window_size ∧
      (∀ row ∈ w, row.length = 80) ∧
      (∀ j : Nat, ∀ hj : j < w.length,
        ∃ ht : (r + j) % 142 < (List.replicate 142 (List.replicate 80 (0 : ℝ)) :
          Spectrogram).length,
        w.get ⟨j, hj⟩ = (List.replicate 142 (List.replicate 80 (0 : ℝ)) :
          Spectrogram).get ⟨(r + j) % 142, ht⟩) ∧
      (∀ t : Nat, t < 28 → ∃ rngt rngt' : RandSource,
        windowBatch window_size
            [List.replicate 142 (List.replicate 80 (0 : ℝ))] [142] rngt =
          some ([((repeat2 ((List.replicate 142 (List.replicate 80 (0 : ℝ)) :
            Spectrogram).take 142)).drop t).take window_size], rngt')) := by
  have hsrc : 142 ≤ (List.replicate 142 (List.replicate 80 (0 : ℝ)) :
      Spectrogram).length := by
    rw [List.length_replicate]
  have hF : ∀ row ∈ (List.replicate 142 (List.replicate 80 (0 : ℝ)) :
      Spectrogram), row.length = 80 := by
    intro row hr
    rw [List.eq_of_mem_replicate hr, List.length_replicate]
  exact ⟨hsrc, hF, C5_gt_branch_uniform_offset_and_content _
    (fun _ => 0 : RandSource) hsrc hF⟩

end StyleEmbedding
